import Mathlib

/-!
Verification development for the wave-client resilient request engine,
error taxonomy, backoff policy, version parsing, row normalization and
batch pagination.  Definitions are shallow embeddings of the Python
source in `wave_client` (http_client.py, exceptions.py, versioning.py,
pandas_utils.py, models/base.py, resources/experiment_data.py).

Durations (delays, Retry-After values) are modelled as rationals (ℚ);
HTTP status codes as naturals; Python `dict`s as association lists with
first-occurrence lookup and in-place replacement on update.
-/

namespace WaveClient

/-- Typed failure taxonomy: mirrors the exception classes of
`wave_client/exceptions.py`.  Every class stores `message`, a
`status_code` (the base class defaults it to `None`, hence `Option`)
and `detail`; `RateLimitError` additionally stores `retry_after`. -/
inductive WaveError where
  | validation (message detail : String)
  | authentication (message detail : String)
  | authorization (message detail : String)
  | notFound (message detail : String)
  | rateLimit (message detail : String) (retry_after : Option ℚ)
  | server (message : String) (status_code : ℕ) (detail : String)
  | unknown (message : String) (status_code : ℕ) (detail : String)
  | generic (message : String)
  deriving Repr, DecidableEq

/-- The `status_code` attribute set by `WaveClientError.__init__`:
each subclass passes its fixed code (400/401/403/404/429), `ServerError`
passes the actual status, the plain base class carries the status it was
given (`unknown`) or `None` (`generic`, as raised on the network path). -/
def WaveError.status_code : WaveError → Option ℕ
  | .validation _ _ => some 400
  | .authentication _ _ => some 401
  | .authorization _ _ => some 403
  | .notFound _ _ => some 404
  | .rateLimit _ _ _ => some 429
  | .server _ c _ => some c
  | .unknown _ c _ => some c
  | .generic _ => none

/-- `getattr(error, "retry_after", None)`: only `RateLimitError` has the
attribute. -/
def WaveError.retry_after : WaveError → Option ℚ
  | .rateLimit _ _ r => r
  | _ => none

/-- Discriminator for the failure kind, used to state classification
claims. -/
inductive FailureKind where
  | validation | authentication | authorization | notFound
  | rateLimit | server | unknown | generic
  deriving Repr, DecidableEq

/-- The kind of a failure value. -/
def WaveError.kind : WaveError → FailureKind
  | .validation _ _ => .validation
  | .authentication _ _ => .authentication
  | .authorization _ _ => .authorization
  | .notFound _ _ => .notFound
  | .rateLimit _ _ _ => .rateLimit
  | .server _ _ _ => .server
  | .unknown _ _ _ => .unknown
  | .generic _ => .generic

/-- The decoded JSON error body as far as `_create_http_error` reads it:
optional `message` and `detail` fields. -/
structure ErrorBody where
  message : Option String
  detail : Option String
  deriving Repr, DecidableEq

/-- The `Retry-After` header value after Python's `float()` parse
attempt: either a numeric value or a non-numeric string (which raises
`ValueError` in the code). -/
inductive RetryAfterHeader where
  | numeric (value : ℚ)
  | nonNumeric
  deriving Repr, DecidableEq

/-- The parts of an `httpx.Response` that `HTTPClient.request` and
`HTTPClient._create_http_error` inspect.  `retry_after_header = none`
models a missing `Retry-After` header; `content_type_json` models
`content-type` starting with `application/json`. -/
structure HttpResponse where
  status_code : ℕ
  content_type_json : Bool
  retry_after_header : Option RetryAfterHeader
  error_body : ErrorBody
  text : String
  deriving Repr, DecidableEq

/-- `HTTPClient._create_http_error(status_code, error_data, response)`:
maps a status code and decoded error body to a typed error.  Mirrors
the `if/elif` chain of http_client.py lines 205-232. -/
def create_http_error (status_code : ℕ) (error_data : ErrorBody)
    (response : HttpResponse) : WaveError :=
  let message := error_data.message.getD ("HTTP " ++ toString status_code ++ " error")
  let detail := error_data.detail.getD response.text
  if status_code = 400 then .validation message detail
  else if status_code = 401 then .authentication message detail
  else if status_code = 403 then .authorization message detail
  else if status_code = 404 then .notFound message detail
  else if status_code = 429 then
    let retry_after : Option ℚ :=
      match response.retry_after_header with
      | none => none
      | some (.numeric v) => some v
      | some .nonNumeric => some 5
    .rateLimit message detail retry_after
  else if 500 ≤ status_code then .server message status_code detail
  else .unknown message status_code detail

/-- The retry configuration of `HTTPClient.__init__`. -/
structure RetryConfig where
  max_retries : ℕ
  base_delay : ℚ
  max_delay : ℚ
  deriving Repr, DecidableEq

/-- The constructor defaults: `max_retries=3, base_delay=1.0,
max_delay=30.0`. -/
def defaultConfig : RetryConfig :=
  { max_retries := 3, base_delay := 1, max_delay := 30 }

/-- The retryable status codes of `HTTPClient._should_retry`. -/
def retryable_codes : List ℕ := [429, 500, 502, 503, 504]

/-- `HTTPClient._should_retry(error, attempt)`.  Every `WaveClientError`
has a `status_code` attribute (possibly `None`), so `hasattr` is true
for the HTTP-classified errors and `None in retryable_codes` is false. -/
def should_retry (cfg : RetryConfig) (error : WaveError) (attempt : ℕ) : Bool :=
  if cfg.max_retries ≤ attempt then false
  else
    match error.status_code with
    | some c => c ∈ retryable_codes
    | none => false

/-- Python truthiness of an `Optional[float]`: `None` and `0.0` are
falsy, every other float is truthy. -/
def pyTruthy : Option ℚ → Bool
  | none => false
  | some r => r ≠ 0

/-- `HTTPClient._calculate_delay(attempt, retry_after)`.  The jitter
drawn by `random.uniform(0, 1)` is passed in as a parameter.  The guard
is Python's `if retry_after:`, i.e. truthiness, not an `is not None`
test. -/
def calculate_delay (cfg : RetryConfig) (attempt : ℕ)
    (retry_after : Option ℚ) (jitter : ℚ) : ℚ :=
  if pyTruthy retry_after then
    min (retry_after.getD 0) cfg.max_delay
  else
    min (cfg.base_delay * 2 ^ (attempt - 1) + jitter) cfg.max_delay

/-- A successful response payload: decoded JSON when the response
declares a JSON content type, else the raw text wrapped in a
single-field `{"message": text}` payload. -/
inductive SuccessPayload where
  | json (text : String)
  | wrapped (text : String)
  deriving Repr, DecidableEq

/-- `HTTPClient.request(method, url, json_data, params, attempt)`,
lines 89-173 of http_client.py, restricted to the HTTP path (the
transport raised no exception, so every attempt yields a response).
`responses` maps the attempt number to the response observed by that
physical attempt.  The recursion `return await self.request(...,
attempt + 1)` is bounded because `_should_retry` is false once
`attempt >= max_retries`. -/
def request (cfg : RetryConfig) (responses : ℕ → HttpResponse)
    (attempt : ℕ) : Except WaveError SuccessPayload :=
  let response := responses attempt
  if response.status_code < 400 then
    if response.content_type_json then .ok (.json response.text)
    else .ok (.wrapped response.text)
  else
    let error_data :=
      if response.content_type_json then response.error_body
      else ⟨none, none⟩
    let error := create_http_error response.status_code error_data response
    if h : should_retry cfg error attempt then
      request cfg responses (attempt + 1)
    else
      .error error
termination_by cfg.max_retries - attempt
decreasing_by
  simp only [should_retry] at h
  split at h
  · exact absurd h (by simp)
  · omega

/-- The list of attempt numbers at which `request` performs a physical
attempt, in order: same recursion structure as `request`. -/
def request_attempts (cfg : RetryConfig) (responses : ℕ → HttpResponse)
    (attempt : ℕ) : List ℕ :=
  let response := responses attempt
  if response.status_code < 400 then [attempt]
  else
    let error_data :=
      if response.content_type_json then response.error_body
      else ⟨none, none⟩
    let error := create_http_error response.status_code error_data response
    if h : should_retry cfg error attempt then
      attempt :: request_attempts cfg responses (attempt + 1)
    else
      [attempt]
termination_by cfg.max_retries - attempt
decreasing_by
  simp only [should_retry] at h
  split at h
  · exact absurd h (by simp)
  · omega

end WaveClient

namespace Versioning

/-- The decimal value of a digit string, as computed by Python's
`int()`. -/
def digitsToNat (ds : List Char) : ℕ :=
  ds.foldl (fun n c => 10 * n + (c.toNat - 48)) 0

/-- Split off the maximal leading run of ASCII digits, the way the
greedy `(\d+)` group matches. -/
def splitDigits (s : List Char) : List Char × List Char :=
  (s.takeWhile Char.isDigit, s.dropWhile Char.isDigit)

/-- Whether the remainder after the three integer groups is accepted by
`(?:-.*)?(?:\+.*)?$`: the remainder, minus at most one trailing newline
(which `$` tolerates), must be empty or start with `-` or `+` and
contain no further newline (`.` does not match a newline). -/
def suffixAccepted (rest : List Char) : Bool :=
  let body := if rest.getLast? = some '\n' then rest.dropLast else rest
  match body with
  | [] => true
  | c :: tail => (c = '-' || c = '+') && !(tail.contains '\n')

/-- `parse_version(version_string)` of versioning.py: strip leading
`v` characters (`lstrip("v")` removes every leading `v`, and only
`v`s), then match `^(\d+)\.(\d+)\.(\d+)(?:-.*)?(?:\+.*)?$` and read the
three groups as integers. -/
def parse_version (version_string : String) : Option (ℕ × ℕ × ℕ) :=
  if version_string = "" then none
  else
    let cs := version_string.data.dropWhile (· = 'v')
    let (d1, r1) := splitDigits cs
    if d1 = [] then none
    else
      match r1 with
      | '.' :: r1' =>
        let (d2, r2) := splitDigits r1'
        if d2 = [] then none
        else
          match r2 with
          | '.' :: r2' =>
            let (d3, r3) := splitDigits r2'
            if d3 = [] then none
            else if suffixAccepted r3 then
              some (digitsToNat d1, digitsToNat d2, digitsToNat d3)
            else none
          | _ => none
      | _ => none

/-- `is_compatible(client_version, api_version)`: same major version is
compatible; unparseable versions degrade gracefully to compatible. -/
def is_compatible (client_version api_version : String) : Bool :=
  match parse_version client_version, parse_version api_version with
  | some c, some a => c.1 = a.1
  | _, _ => true

end Versioning

namespace Rows

/-- A dynamically-typed cell value, covering what the client passes
through: Python ints, floats, strings, bools, UUIDs, datetimes and
explicit nulls supplied by the server. -/
inductive Value where
  | int (n : ℤ)
  | num (q : ℚ)
  | str (s : String)
  | bool (b : Bool)
  | uuid (u : ℕ)
  | datetime (t : ℤ)
  | null
  deriving Repr, DecidableEq

/-- Canonical string rendering of a UUID, standing for Python's
`str(uuid)`. -/
def uuidToString (u : ℕ) : String := "uuid-" ++ toString u

/-- A Python `dict[str, value]` modelled as an association list whose
lookup returns the first binding. -/
abbrev Dict := List (String × Value)

/-- First-occurrence lookup, `d[k]` / `d.get(k)`. -/
def dget (k : String) : Dict → Option Value
  | [] => none
  | (k', v) :: tail => if k' = k then some v else dget k tail

/-- `d[k] = v`: replace the first binding of `k` in place, else append
(dict insertion order). -/
def dset (d : Dict) (k : String) (v : Value) : Dict :=
  match d with
  | [] => [(k, v)]
  | (k', v') :: tail =>
    if k' = k then (k, v) :: tail else (k', v') :: dset tail k v

/-- `d.update(other)`: `d[k] = v` for each item of `other` in order. -/
def dupdate (d : Dict) (other : Dict) : Dict :=
  other.foldl (fun acc kv => dset acc kv.1 kv.2) d

/-- `ExperimentDataRow` of models/base.py: the five declared mandatory
fields plus the dynamically-added custom fields (`extra="allow"`). -/
structure ExperimentDataRow where
  id : ℤ
  experiment_uuid : ℕ
  participant_id : String
  created_at : ℤ
  updated_at : ℤ
  custom : Dict
  deriving Repr, DecidableEq

/-- The reserved mandatory column names (`standard_fields` in
`ExperimentDataRow.get_custom_data`). -/
def standard_fields : List String :=
  ["id", "experiment_uuid", "participant_id", "created_at", "updated_at"]

/-- `model_dump()`: the declared fields followed by the extra fields. -/
def ExperimentDataRow.model_dump (r : ExperimentDataRow) : Dict :=
  [("id", .int r.id),
   ("experiment_uuid", .uuid r.experiment_uuid),
   ("participant_id", .str r.participant_id),
   ("created_at", .datetime r.created_at),
   ("updated_at", .datetime r.updated_at)] ++ r.custom

/-- `ExperimentDataRow.get_custom_data()`: every dumped item whose key
is not a standard field. -/
def ExperimentDataRow.get_custom_data (r : ExperimentDataRow) : Dict :=
  r.model_dump.filter (fun kv => kv.1 ∉ standard_fields)

/-- The record built for one row inside
`experiment_data_to_dataframe`: dump the model, stringify the UUID,
then flatten the custom data on top. -/
def record_of_row (r : ExperimentDataRow) : Dict :=
  let record := dset r.model_dump "experiment_uuid" (.str (uuidToString r.experiment_uuid))
  dupdate record r.get_custom_data

/-- The DataFrame produced by `experiment_data_to_dataframe`: ordered
column set, one record per row (a missing key is the absence marker,
pandas' `NaN`), and the columns coerced to datetime respectively
categorical dtype. -/
structure DataFrame where
  columns : List String
  records : List Dict
  datetime_columns : List String
  categorical_columns : List String
  deriving Repr, DecidableEq

/-- Column union in first-seen order, as `pd.DataFrame(records)`
computes it. -/
def unionColumns (records : List Dict) : List String :=
  records.foldl
    (fun acc rec => acc ++ ((rec.map Prod.fst).filter (fun k => k ∉ acc)).eraseDups)
    []

/-- The cell of record `i` at column `col`; `none` is the absence
marker (`NaN`), distinct from an explicit `Value.null` from the
server. -/
def DataFrame.cell (df : DataFrame) (i : ℕ) (col : String) : Option Value :=
  (df.records.get? i).bind (dget col)

/-- `experiment_data_to_dataframe(data_rows)` of pandas_utils.py:
empty input gives an empty frame; otherwise build one record per row,
take the union of the records' columns, and coerce
`created_at`/`updated_at` to datetimes and
`participant_id`/`experiment_uuid` to categoricals when present. -/
def experiment_data_to_dataframe (data_rows : List ExperimentDataRow) : DataFrame :=
  if data_rows = [] then ⟨[], [], [], []⟩
  else
    let records := data_rows.map record_of_row
    let columns := unionColumns records
    { columns := columns
      records := records
      datetime_columns := ["created_at", "updated_at"].filter (· ∈ columns)
      categorical_columns := ["participant_id", "experiment_uuid"].filter (· ∈ columns) }

end Rows

namespace Pagination

/-- `get_data_raw(experiment_id, limit, offset)` at the collaborator
boundary: a paginated read of the experiment's dataset, returning
`data[offset : offset + limit]`. -/
def get_data_raw {α : Type} (data : List α) (limit offset : ℕ) : List α :=
  (data.drop offset).take limit

/-- The `while True` pagination loop of
`ExperimentDataResource.get_all_data_raw` (experiment_data.py lines
281-299), from a given offset: fetch a batch, stop on an empty batch,
accumulate, stop on a short batch, else advance the offset by
`batch_size`. -/
def get_all_data_raw_from {α : Type} [DecidableEq α] (data : List α) (batch_size offset : ℕ) :
    List α :=
  if get_data_raw data batch_size offset = [] then []
  else if (get_data_raw data batch_size offset).length < batch_size then
    get_data_raw data batch_size offset
  else
    get_data_raw data batch_size offset ++
      get_all_data_raw_from data batch_size (offset + batch_size)
termination_by data.length + 1 - offset
decreasing_by
  rename_i hne hshort
  simp only [get_data_raw] at hne hshort
  rw [List.length_take, List.length_drop] at hshort
  have hpos : 0 < batch_size := by
    rcases Nat.eq_zero_or_pos batch_size with h0 | h
    · subst h0; simp at hne
    · exact h
  omega

/-- `get_all_data_raw(experiment_id, batch_size)`: run the loop from
offset 0. -/
def get_all_data_raw {α : Type} [DecidableEq α] (data : List α) (batch_size : ℕ) : List α :=
  get_all_data_raw_from data batch_size 0

/-- The successive batches the loop fetches (in order), with the same
stopping conditions — used to state how pagination terminates. -/
def fetched_pages_from {α : Type} [DecidableEq α] (data : List α) (batch_size offset : ℕ) :
    List (List α) :=
  if get_data_raw data batch_size offset = [] then
    [get_data_raw data batch_size offset]
  else if (get_data_raw data batch_size offset).length < batch_size then
    [get_data_raw data batch_size offset]
  else
    get_data_raw data batch_size offset ::
      fetched_pages_from data batch_size (offset + batch_size)
termination_by data.length + 1 - offset
decreasing_by
  rename_i hne hshort
  simp only [get_data_raw] at hne hshort
  rw [List.length_take, List.length_drop] at hshort
  have hpos : 0 < batch_size := by
    rcases Nat.eq_zero_or_pos batch_size with h0 | h
    · subst h0; simp at hne
    · exact h
  omega

end Pagination

namespace WaveClient

/-- Classification preserves the status code in the error's
`status_code` attribute, whatever the body and response. -/
lemma status_code_create_http_error (s : ℕ) (b : ErrorBody) (r : HttpResponse) :
    (create_http_error s b r).status_code = some s := by
  unfold create_http_error
  split_ifs with h400 h401 h403 h404 h429 h500 <;>
    simp_all [WaveError.status_code]

/-- `_should_retry` on a classified error is the conjunction of a
retryable status code and a spare attempt. -/
lemma should_retry_classified (cfg : RetryConfig) (s : ℕ) (b : ErrorBody)
    (r : HttpResponse) (attempt : ℕ) :
    should_retry cfg (create_http_error s b r) attempt = true ↔
      s ∈ retryable_codes ∧ attempt < cfg.max_retries := by
  unfold should_retry
  rw [status_code_create_http_error]
  split_ifs with h
  · simp only [Bool.false_eq_true, false_iff]
    rintro ⟨-, hlt⟩
    omega
  · simp only [decide_eq_true_eq]
    constructor
    · intro hmem
      exact ⟨hmem, by omega⟩
    · rintro ⟨hmem, -⟩
      exact hmem

end WaveClient

namespace WaveClient

/-- Retryable status codes denote failures (they are at least 400). -/
lemma retryable_code_ge_400 {s : ℕ} (h : s ∈ retryable_codes) : 400 ≤ s := by
  simp only [retryable_codes, List.mem_cons, List.not_mem_nil, or_false] at h
  omega

/-- The error `request` classifies from the response of a given
attempt. -/
def classified_error (responses : ℕ → HttpResponse) (n : ℕ) : WaveError :=
  create_http_error (responses n).status_code
    (if (responses n).content_type_json then (responses n).error_body
     else ⟨none, none⟩)
    (responses n)

/-- A constant 503 response, used to instantiate the exhaustion
scenario. -/
def resp503 : HttpResponse := ⟨503, true, none, ⟨none, none⟩, "boom"⟩

/-- When every attempt observes a retryable failure status, the loop
starting at attempt `a ∈ [1, max_retries]` performs attempts
`a, a+1, …, max_retries` and raises the error classified from the last
response. -/
lemma request_all_fail_aux (cfg : RetryConfig) (responses : ℕ → HttpResponse)
    (hall : ∀ n, (responses n).status_code ∈ retryable_codes) :
    ∀ k a, cfg.max_retries - a = k → a ≤ cfg.max_retries →
      request cfg responses a = .error (classified_error responses cfg.max_retries) ∧
      request_attempts cfg responses a = List.range' a (cfg.max_retries + 1 - a) := by
  intro k
  induction k with
  | zero =>
    intro a hk ham
    have ha : a = cfg.max_retries := by omega
    have hge : ¬ (responses a).status_code < 400 := by
      have := retryable_code_ge_400 (hall a)
      omega
    have hsr : ¬ should_retry cfg (classified_error responses a) a = true := by
      simp only [classified_error]
      rw [should_retry_classified]
      rintro ⟨-, hlt⟩
      omega
    rw [request, request_attempts]
    simp only [classified_error] at hsr
    simp only [if_neg hge]
    rw [dif_neg hsr, dif_neg hsr]
    constructor
    · rw [ha]
      simp only [classified_error]
    · have hn : cfg.max_retries + 1 - a = 1 := by omega
      rw [hn]
      rfl
  | succ k ih =>
    intro a hk ham
    have halt : a < cfg.max_retries := by omega
    have hge : ¬ (responses a).status_code < 400 := by
      have := retryable_code_ge_400 (hall a)
      omega
    have hsr : should_retry cfg (classified_error responses a) a = true := by
      simp only [classified_error]
      rw [should_retry_classified]
      exact ⟨hall a, halt⟩
    obtain ⟨ih1, ih2⟩ := ih (a + 1) (by omega) (by omega)
    rw [request, request_attempts]
    simp only [classified_error] at hsr
    simp only [if_neg hge]
    rw [dif_pos hsr, dif_pos hsr]
    refine ⟨ih1, ?_⟩
    rw [ih2]
    have hcount : cfg.max_retries + 1 - a = (cfg.max_retries + 1 - (a + 1)) + 1 := by
      omega
    rw [hcount, List.range'_succ]

/-- C1: when every physical attempt fails with a retryable failure,
`HTTPClient.request` terminates after exactly `max_retries` attempts,
numbered `1, 2, …, max_retries` (monotonically increasing, never
exceeding the budget), and raises the failure classified from the last
response unchanged. -/
theorem request_exhausts_all_attempts (cfg : RetryConfig)
    (responses : ℕ → HttpResponse)
    (hall : ∀ n, (responses n).status_code ∈ ([429, 500, 502, 503, 504] : List ℕ))
    (hm : 1 ≤ cfg.max_retries) :
    request cfg responses 1 = .error (classified_error responses cfg.max_retries) ∧
    request_attempts cfg responses 1 = List.range' 1 cfg.max_retries := by
  obtain ⟨h1, h2⟩ := request_all_fail_aux cfg responses hall (cfg.max_retries - 1) 1 rfl hm
  refine ⟨h1, ?_⟩
  rw [h2]
  congr 1

/-- C1, witness: three straight 503 responses with the default
configuration (`max_retries = 3`) yield exactly the attempts 1, 2, 3
and a Server failure carrying status code 503. -/
theorem request_exhausts_all_attempts_witness :
    request defaultConfig (fun _ => resp503) 1 =
      .error (.server "HTTP 503 error" 503 "boom") ∧
    request_attempts defaultConfig (fun _ => resp503) 1 = [1, 2, 3] := by
  obtain ⟨h1, h2⟩ := request_exhausts_all_attempts defaultConfig (fun _ => resp503)
    (fun n => by show resp503.status_code ∈ _; decide) (by decide)
  constructor
  · rw [h1]
    rfl
  · rw [h2]
    rfl

/-- C2: a classified HTTP failure is retried if and only if its status
code lies in the exact set {429, 500, 502, 503, 504} and the current
attempt number is strictly below the attempt budget; in particular
failures classified from 400, 401, 403, 404 — and from 501 — are never
retried, whatever the attempt count. -/
theorem should_retry_iff_code_retryable_and_attempt_below_max
    (cfg : RetryConfig) (s : ℕ) (b : ErrorBody) (r : HttpResponse) (attempt : ℕ) :
    (should_retry cfg (create_http_error s b r) attempt = true ↔
      s ∈ ([429, 500, 502, 503, 504] : List ℕ) ∧ attempt < cfg.max_retries) ∧
    (∀ a : ℕ, s ∈ ([400, 401, 403, 404, 501] : List ℕ) →
      should_retry cfg (create_http_error s b r) a = false) := by
  constructor
  · exact should_retry_classified cfg s b r attempt
  · intro a hs
    cases hb : should_retry cfg (create_http_error s b r) a with
    | false => rfl
    | true =>
      exfalso
      obtain ⟨hmem, -⟩ := (should_retry_classified cfg s b r a).1 hb
      simp only [retryable_codes, List.mem_cons, List.not_mem_nil, or_false]
        at hmem hs
      omega

/-- C2, witness: a classified 503 failure at attempt 1 of 3 is
retried; a classified 400 failure never is. -/
theorem should_retry_iff_witness :
    should_retry defaultConfig
      (create_http_error 503 ⟨none, none⟩ resp503) 1 = true ∧
    should_retry defaultConfig
      (create_http_error 400 ⟨none, none⟩ resp503) 1 = false := by
  constructor
  · exact (should_retry_iff_code_retryable_and_attempt_below_max
      defaultConfig 503 ⟨none, none⟩ resp503 1).1.mpr ⟨by decide, by decide⟩
  · exact (should_retry_iff_code_retryable_and_attempt_below_max
      defaultConfig 400 ⟨none, none⟩ resp503 1).2 1 (by decide)

/-- C3 counterexample: status 600 is classified as a Server failure
(the code tests `status_code >= 500`), not as the Unknown kind the
claim assigns to statuses of 600 and above. -/
theorem create_http_error_600_is_server_not_unknown :
    (create_http_error 600 ⟨none, none⟩ ⟨600, true, none, ⟨none, none⟩, "t"⟩).kind
        = FailureKind.server ∧
    FailureKind.server ≠ FailureKind.unknown := by
  constructor
  · rfl
  · decide

/-- C3 amended: classification maps 400 ↦ Validation, 401 ↦
Authentication, 403 ↦ Authorization, 404 ↦ NotFound, 429 ↦ RateLimit,
every status of 500 **or above** (not only 500–599) ↦ Server, and every
remaining status ↦ Unknown; the status code is preserved in every
case. -/
theorem create_http_error_classification (s : ℕ) (b : ErrorBody) (r : HttpResponse) :
    (create_http_error s b r).status_code = some s ∧
    (s = 400 → (create_http_error s b r).kind = .validation) ∧
    (s = 401 → (create_http_error s b r).kind = .authentication) ∧
    (s = 403 → (create_http_error s b r).kind = .authorization) ∧
    (s = 404 → (create_http_error s b r).kind = .notFound) ∧
    (s = 429 → (create_http_error s b r).kind = .rateLimit) ∧
    (500 ≤ s → (create_http_error s b r).kind = .server) ∧
    (s ∉ ([400, 401, 403, 404, 429] : List ℕ) → s < 500 →
      (create_http_error s b r).kind = .unknown) := by
  refine ⟨status_code_create_http_error s b r, ?_, ?_, ?_, ?_, ?_, ?_, ?_⟩
  all_goals unfold create_http_error
  all_goals intros
  all_goals split_ifs
  all_goals simp_all [WaveError.kind]
  all_goals omega

/-- C3 amended, witness at statuses 400 and 600 and 418. -/
theorem create_http_error_classification_witness :
    (create_http_error 400 ⟨none, none⟩ ⟨400, true, none, ⟨none, none⟩, "t"⟩).kind
        = FailureKind.validation ∧
    (create_http_error 600 ⟨none, none⟩ ⟨600, true, none, ⟨none, none⟩, "t"⟩).kind
        = FailureKind.server ∧
    (create_http_error 418 ⟨none, none⟩ ⟨418, true, none, ⟨none, none⟩, "t"⟩).kind
        = FailureKind.unknown := by
  refine ⟨?_, ?_, ?_⟩
  · exact (create_http_error_classification 400 ⟨none, none⟩ _).2.1 rfl
  · exact (create_http_error_classification 600 ⟨none, none⟩ _).2.2.2.2.2.2.1 (by omega)
  · exact (create_http_error_classification 418 ⟨none, none⟩ _).2.2.2.2.2.2.2
      (by decide) (by omega)

/-- C4 counterexample: with a present `retry_after` of 0, the delay is
computed by the exponential-backoff branch (Python's `if retry_after:`
is false at `0.0`), so at attempt 1, zero jitter and the default
configuration it is 1, not `min 0 max_delay = 0`. -/
theorem calculate_delay_zero_retry_after_uses_backoff :
    calculate_delay defaultConfig 1 (some 0) 0 = 1 ∧
    calculate_delay defaultConfig 1 (some 0) 0 ≠
      min (0 : ℚ) defaultConfig.max_delay := by
  constructor
  · simp [calculate_delay, pyTruthy, defaultConfig]
  · simp [calculate_delay, pyTruthy, defaultConfig]

/-- C4 amended: for every present and **non-zero** `retry_after` value
`R` the delay equals `min R max_delay` exactly, whatever the attempt
and the jitter draw; `R = 0` falls through to the exponential-backoff
branch. -/
theorem calculate_delay_nonzero_retry_after (cfg : RetryConfig) (attempt : ℕ)
    (R jitter : ℚ) (hR : R ≠ 0) :
    calculate_delay cfg attempt (some R) jitter = min R cfg.max_delay := by
  simp [calculate_delay, pyTruthy, hR]

/-- C4 amended, witness at `R = 2`. -/
theorem calculate_delay_nonzero_retry_after_witness :
    calculate_delay defaultConfig 1 (some 2) 0 = min (2 : ℚ) defaultConfig.max_delay :=
  calculate_delay_nonzero_retry_after defaultConfig 1 2 0 (by norm_num)

/-- C5: the code can return a negative delay — a `Retry-After: -5`
header parses to `-5.0`, which is truthy, so `_calculate_delay`
returns `min(-5, max_delay) = -5 < 0`, contradicting the claim (and
the spec's "must never return a negative or unbounded value"). -/
theorem calculate_delay_negative_retry_after_bug :
    calculate_delay defaultConfig 1 (some (-5)) 0 = -5 ∧ (-5 : ℚ) < 0 ∧
    (create_http_error 429 ⟨none, none⟩
        ⟨429, true, some (.numeric (-5)), ⟨none, none⟩, "t"⟩).retry_after
      = some (-5) := by
  refine ⟨?_, by norm_num, by rfl⟩
  simp [calculate_delay, pyTruthy, defaultConfig]
  norm_num

/-- C6: a 429 response classifies to a RateLimit failure whose
`retry_after` is the numeric value of the `Retry-After` header when
present and numeric, exactly 5.0 when present but non-numeric, and
absent when the header is missing. -/
theorem rate_limit_retry_after_extraction (b : ErrorBody) (r : HttpResponse) :
    (create_http_error 429 b r).kind = FailureKind.rateLimit ∧
    (create_http_error 429 b r).retry_after =
      (match r.retry_after_header with
       | some (.numeric v) => some v
       | some .nonNumeric => some (5 : ℚ)
       | none => none) := by
  unfold create_http_error
  norm_num [WaveError.kind, WaveError.retry_after]
  cases r.retry_after_header with
  | none => rfl
  | some h => cases h <;> rfl

end WaveClient

namespace Versioning

/-- A maximal digit run splits off an all-digit prefix exactly when the
remainder does not begin with a digit. -/
lemma takeWhile_digits_append (d rest : List Char)
    (hd : ∀ c ∈ d, c.isDigit = true)
    (hr : ∀ c t, rest = c :: t → c.isDigit = false) :
    (d ++ rest).takeWhile Char.isDigit = d := by
  induction d with
  | nil =>
    cases rest with
    | nil => rfl
    | cons c t => simp [List.takeWhile_cons, hr c t rfl]
  | cons c d ih =>
    have hc : c.isDigit = true := hd c (by simp)
    simp only [List.cons_append, List.takeWhile_cons, hc, if_true]
    rw [ih (fun x hx => hd x (by simp [hx]))]

/-- Companion to `takeWhile_digits_append` for the dropped part. -/
lemma dropWhile_digits_append (d rest : List Char)
    (hd : ∀ c ∈ d, c.isDigit = true)
    (hr : ∀ c t, rest = c :: t → c.isDigit = false) :
    (d ++ rest).dropWhile Char.isDigit = rest := by
  induction d with
  | nil =>
    cases rest with
    | nil => rfl
    | cons c t => simp [List.dropWhile_cons, hr c t rfl]
  | cons c d ih =>
    have hc : c.isDigit = true := hd c (by simp)
    simp only [List.cons_append, List.dropWhile_cons, hc, if_true]
    exact ih (fun x hx => hd x (by simp [hx]))

/-- `splitDigits` on an all-digit prefix followed by a non-digit-headed
remainder. -/
lemma splitDigits_append (d rest : List Char)
    (hd : ∀ c ∈ d, c.isDigit = true)
    (hr : ∀ c t, rest = c :: t → c.isDigit = false) :
    splitDigits (d ++ rest) = (d, rest) := by
  unfold splitDigits
  rw [takeWhile_digits_append d rest hd hr, dropWhile_digits_append d rest hd hr]

/-- `lstrip("v")` removes exactly a leading replicate of `v`s. -/
lemma dropWhile_v_replicate (k : ℕ) (cs : List Char) :
    (List.replicate k 'v' ++ cs).dropWhile (· = 'v') = cs.dropWhile (· = 'v') := by
  induction k with
  | zero => rfl
  | succ k ih => simp [List.replicate_succ, List.dropWhile_cons, ih]

/-- `lstrip("v")` leaves a digit-headed list untouched. -/
lemma dropWhile_v_digit_head (c : Char) (t : List Char) (hc : c.isDigit = true) :
    (c :: t).dropWhile (· = 'v') = c :: t := by
  have hne : ¬ c = 'v' := by
    intro h
    subst h
    simp [Char.isDigit] at hc
  simp [List.dropWhile_cons, hne]

/-- A character that is a dash or a plus is not a digit. -/
lemma dash_plus_not_digit {c : Char} (h : c = '-' ∨ c = '+') :
    c.isDigit = false := by
  rcases h with h | h <;> subst h <;> rfl

/-- An accepted suffix never begins with a digit: it is empty, a lone
trailing newline, or begins with `-` or `+`. -/
lemma suffixAccepted_head_not_digit {c : Char} {t : List Char}
    (h : suffixAccepted (c :: t) = true) : c.isDigit = false := by
  cases t with
  | nil =>
    by_cases hc : c = '\n'
    · subst hc
      rfl
    · unfold suffixAccepted at h
      simp only [List.getLast?_singleton, Option.some.injEq] at h
      rw [if_neg hc] at h
      simp only [Bool.and_eq_true, Bool.or_eq_true, decide_eq_true_eq] at h
      exact dash_plus_not_digit h.1
  | cons d t' =>
    unfold suffixAccepted at h
    rw [List.dropLast_cons₂] at h
    split at h <;>
      simp only [Bool.and_eq_true, Bool.or_eq_true, decide_eq_true_eq] at h <;>
      exact dash_plus_not_digit h.1

/-- `lstrip("v")` leaves a nonempty all-digit group (and whatever
follows it) untouched. -/
lemma dropWhile_v_digits (k : ℕ) (d rest : List Char) (hne : d ≠ [])
    (hd : ∀ c ∈ d, c.isDigit = true) :
    (List.replicate k 'v' ++ (d ++ rest)).dropWhile (· = 'v') = d ++ rest := by
  cases d with
  | nil => exact absurd rfl hne
  | cons c t =>
    rw [dropWhile_v_replicate, List.cons_append, dropWhile_v_digit_head,
      ← List.cons_append]
    exact hd c (by simp)

/-- The version-string shape accepted by the code: an optional leading
run of `v` characters, three nonempty dot-separated digit groups, and
an accepted suffix. -/
def versionShape (k : ℕ) (d1 d2 d3 suffix : List Char) : List Char :=
  List.replicate k 'v' ++ (d1 ++ ('.' :: (d2 ++ ('.' :: (d3 ++ suffix)))))

/-- Soundness half: a string of the accepted shape parses to the three
digit groups read as decimal integers. -/
lemma parse_version_of_shape (k : ℕ) (d1 d2 d3 suffix : List Char)
    (h1 : d1 ≠ []) (h1d : ∀ c ∈ d1, c.isDigit = true)
    (h2 : d2 ≠ []) (h2d : ∀ c ∈ d2, c.isDigit = true)
    (h3 : d3 ≠ []) (h3d : ∀ c ∈ d3, c.isDigit = true)
    (hs : suffixAccepted suffix = true) :
    parse_version ⟨versionShape k d1 d2 d3 suffix⟩ =
      some (digitsToNat d1, digitsToNat d2, digitsToNat d3) := by
  have hne : (⟨versionShape k d1 d2 d3 suffix⟩ : String) ≠ "" := by
    intro h
    have hL : versionShape k d1 d2 d3 suffix = [] := congrArg String.data h
    unfold versionShape at hL
    rcases List.append_eq_nil.mp hL with ⟨-, hL'⟩
    rcases List.append_eq_nil.mp hL' with ⟨h1', -⟩
    exact h1 h1'
  unfold parse_version
  rw [if_neg hne]
  have hdata : (⟨versionShape k d1 d2 d3 suffix⟩ : String).data =
      versionShape k d1 d2 d3 suffix := rfl
  rw [hdata]
  unfold versionShape
  rw [dropWhile_v_digits k d1 _ h1 h1d]
  simp only []
  rw [splitDigits_append d1 _ h1d (by rintro c t h; cases h; rfl)]
  simp only []
  rw [if_neg h1]
  rw [splitDigits_append d2 _ h2d (by rintro c t h; cases h; rfl)]
  simp only []
  rw [if_neg h2]
  rw [splitDigits_append d3 suffix h3d
    (fun c t ht => suffixAccepted_head_not_digit (ht ▸ hs))]
  simp only []
  rw [if_neg h3, if_pos hs]

/-- Completeness half: a successful parse exhibits the accepted shape,
with the result the decimal reading of the three digit groups. -/
lemma parse_version_shape_of_some (s : String) (m : ℕ × ℕ × ℕ)
    (h : parse_version s = some m) :
    ∃ k d1 d2 d3 suffix,
      s.data = versionShape k d1 d2 d3 suffix ∧
      d1 ≠ [] ∧ (∀ c ∈ d1, c.isDigit = true) ∧
      d2 ≠ [] ∧ (∀ c ∈ d2, c.isDigit = true) ∧
      d3 ≠ [] ∧ (∀ c ∈ d3, c.isDigit = true) ∧
      suffixAccepted suffix = true ∧
      m = (digitsToNat d1, digitsToNat d2, digitsToNat d3) := by
  unfold parse_version at h
  split at h
  · exact absurd h (by simp)
  · simp only [splitDigits] at h
    split at h
    · exact absurd h (by simp)
    · rename_i hd1
      split at h
      · rename_i r1' heq1
        split at h
        · exact absurd h (by simp)
        · rename_i hd2
          split at h
          · rename_i r2' heq2
            split at h
            · exact absurd h (by simp)
            · rename_i hd3
              split at h
              · rename_i hsuf
                rename_i hx
                refine ⟨(s.data.takeWhile (· = 'v')).length,
                  (s.data.dropWhile (· = 'v')).takeWhile Char.isDigit,
                  r1'.takeWhile Char.isDigit,
                  r2'.takeWhile Char.isDigit,
                  r2'.dropWhile Char.isDigit,
                  ?_, hd1, fun c hc => List.mem_takeWhile_imp hc,
                  hd2, fun c hc => List.mem_takeWhile_imp hc,
                  hd3, fun c hc => List.mem_takeWhile_imp hc,
                  hsuf, by injection h with h'; exact h'.symm⟩
                unfold versionShape
                conv_lhs => rw [← List.takeWhile_append_dropWhile (p := (· = 'v'))
                  (l := s.data)]
                congr 1
                · have hmem : ∀ b ∈ s.data.takeWhile (· = 'v'), b = 'v' := by
                    intro b hb
                    have := List.mem_takeWhile_imp hb
                    exact of_decide_eq_true this
                  exact List.eq_replicate_length.mpr hmem
                · conv_lhs => rw [← List.takeWhile_append_dropWhile
                    (p := Char.isDigit) (l := s.data.dropWhile (· = 'v'))]
                  congr 1
                  rw [heq1]
                  congr 1
                  conv_lhs => rw [← List.takeWhile_append_dropWhile
                    (p := Char.isDigit) (l := r1')]
                  congr 1
                  rw [heq2]
                  congr 1
                  conv_lhs => rw [← List.takeWhile_append_dropWhile
                    (p := Char.isDigit) (l := r2')]
              · exact absurd h (by simp)
          · exact absurd h (by simp)
      · exact absurd h (by simp)

/-- C7 counterexample: `"x1.2.3"` consists of a leading non-digit tag
`"x"`, three dot-separated integers and no suffix, so the claim says it
parses to (1,2,3); the code strips only leading `v` characters
(`lstrip("v")`), so it parses to none. -/
theorem parse_version_rejects_general_leading_tag :
    parse_version "x1.2.3" = none ∧ parse_version "x1.2.3" ≠ some (1, 2, 3) :=
  ⟨rfl, by decide⟩

/-- C7 amended: `parse_version` succeeds exactly on strings made of an
optional leading run of `v` characters (not an arbitrary non-digit
tag), three nonempty dot-separated digit groups, and an optional
trailing suffix that is empty or starts with `-` or `+` (with at most a
trailing newline elsewhere), returning the decimal values of the three
groups; every other string parses to none. -/
theorem parse_version_characterization (s : String) (m : ℕ × ℕ × ℕ) :
    parse_version s = some m ↔
      ∃ k d1 d2 d3 suffix,
        s.data = versionShape k d1 d2 d3 suffix ∧
        d1 ≠ [] ∧ (∀ c ∈ d1, c.isDigit = true) ∧
        d2 ≠ [] ∧ (∀ c ∈ d2, c.isDigit = true) ∧
        d3 ≠ [] ∧ (∀ c ∈ d3, c.isDigit = true) ∧
        suffixAccepted suffix = true ∧
        m = (digitsToNat d1, digitsToNat d2, digitsToNat d3) := by
  constructor
  · exact parse_version_shape_of_some s m
  · rintro ⟨k, d1, d2, d3, suffix, hL, h1, h1d, h2, h2d, h3, h3d, hs, rfl⟩
    have hsmk : s = ⟨versionShape k d1 d2 d3 suffix⟩ := by
      cases s with
      | mk data => exact congrArg String.mk hL
    rw [hsmk]
    exact parse_version_of_shape k d1 d2 d3 suffix h1 h1d h2 h2d h3 h3d hs

end Versioning

namespace Rows

/-- Setting a key makes it retrievable (dict write-then-read). -/
lemma dget_dset_same (d : Dict) (k : String) (v : Value) :
    dget k (dset d k v) = some v := by
  induction d with
  | nil => simp [dset, dget]
  | cons kv tail ih =>
    obtain ⟨k0, v0⟩ := kv
    by_cases h0 : k0 = k
    · simp [dset, dget, h0]
    · simp [dset, dget, h0, ih]

/-- Setting one key leaves every other key's binding unchanged. -/
lemma dget_dset_other (d : Dict) (k k' : String) (v : Value) (h : k' ≠ k) :
    dget k (dset d k' v) = dget k d := by
  induction d with
  | nil => simp [dset, dget, h]
  | cons kv tail ih =>
    obtain ⟨k0, v0⟩ := kv
    by_cases h0 : k0 = k'
    · subst h0
      simp [dset, dget, h]
    · simp only [dset, if_neg h0]
      by_cases h1 : k0 = k
      · simp [dget, h1]
      · simp [dget, h1, ih]

/-- `d.update(other)` leaves keys absent from `other` unchanged. -/
lemma dget_dupdate_not_mem (d other : Dict) (k : String)
    (h : ∀ kv ∈ other, kv.1 ≠ k) :
    dget k (dupdate d other) = dget k d := by
  induction other generalizing d with
  | nil => rfl
  | cons kv rest ih =>
    have hstep : dupdate d (kv :: rest) = dupdate (dset d kv.1 kv.2) rest := rfl
    rw [hstep, ih _ (fun x hx => h x (by simp [hx]))]
    exact dget_dset_other d k kv.1 kv.2 (h kv (by simp))

/-- Every item of `get_custom_data()` has a non-reserved key. -/
lemma get_custom_data_not_standard (r : ExperimentDataRow) :
    ∀ kv ∈ r.get_custom_data, kv.1 ∉ standard_fields := by
  intro kv hkv
  have := List.of_mem_filter hkv
  exact of_decide_eq_true this

/-- The record built for a row always binds the five mandatory columns
to the row's own mandatory field values — flattened custom data can
never overwrite them, whatever names it uses. -/
lemma record_of_row_mandatory (r : ExperimentDataRow) :
    dget "id" (record_of_row r) = some (.int r.id) ∧
    dget "experiment_uuid" (record_of_row r) =
      some (.str (uuidToString r.experiment_uuid)) ∧
    dget "participant_id" (record_of_row r) = some (.str r.participant_id) ∧
    dget "created_at" (record_of_row r) = some (.datetime r.created_at) ∧
    dget "updated_at" (record_of_row r) = some (.datetime r.updated_at) := by
  have hcust : ∀ f, f ∈ standard_fields →
      ∀ kv ∈ r.get_custom_data, kv.1 ≠ f := by
    intro f hf kv hkv he
    exact get_custom_data_not_standard r kv hkv (he ▸ hf)
  unfold record_of_row
  refine ⟨?_, ?_, ?_, ?_, ?_⟩
  · rw [dget_dupdate_not_mem _ _ _ (hcust "id" (by decide)),
      dget_dset_other _ _ _ _ (by decide)]
    rfl
  · rw [dget_dupdate_not_mem _ _ _ (hcust "experiment_uuid" (by decide)),
      dget_dset_same]
  · rw [dget_dupdate_not_mem _ _ _ (hcust "participant_id" (by decide)),
      dget_dset_other _ _ _ _ (by decide)]
    rfl
  · rw [dget_dupdate_not_mem _ _ _ (hcust "created_at" (by decide)),
      dget_dset_other _ _ _ _ (by decide)]
    rfl
  · rw [dget_dupdate_not_mem _ _ _ (hcust "updated_at" (by decide)),
      dget_dset_other _ _ _ _ (by decide)]
    rfl

set_option maxHeartbeats 2000000 in
/-- C8: normalizing two rows with disjoint custom schemas
{reaction_time} and {accuracy} yields a single table whose column set
is the union of the rows' columns (the five mandatory columns plus
reaction_time and accuracy); the data columns — reaction_time,
accuracy and the two identity columns participant_id and
experiment_uuid — number exactly four; each row carries the absence
marker (not an error) in the custom column it lacks and its own value
in the one it has. -/
theorem normalize_disjoint_schemas_union
    (aid bid : ℤ) (auuid buuid : ℕ) (apid bpid : String)
    (aca aua bca bua : ℤ) (v1 v2 : Value) :
    (experiment_data_to_dataframe
        [⟨aid, auuid, apid, aca, aua, [("reaction_time", v1)]⟩,
         ⟨bid, buuid, bpid, bca, bua, [("accuracy", v2)]⟩]).columns =
      standard_fields ++ ["reaction_time", "accuracy"] ∧
    ((experiment_data_to_dataframe
        [⟨aid, auuid, apid, aca, aua, [("reaction_time", v1)]⟩,
         ⟨bid, buuid, bpid, bca, bua, [("accuracy", v2)]⟩]).columns.filter
      (fun c => c ∉ (["id", "created_at", "updated_at"] : List String))) =
      ["experiment_uuid", "participant_id", "reaction_time", "accuracy"] ∧
    (experiment_data_to_dataframe
        [⟨aid, auuid, apid, aca, aua, [("reaction_time", v1)]⟩,
         ⟨bid, buuid, bpid, bca, bua, [("accuracy", v2)]⟩]).cell 0 "accuracy" =
      none ∧
    (experiment_data_to_dataframe
        [⟨aid, auuid, apid, aca, aua, [("reaction_time", v1)]⟩,
         ⟨bid, buuid, bpid, bca, bua, [("accuracy", v2)]⟩]).cell 1 "reaction_time" =
      none ∧
    (experiment_data_to_dataframe
        [⟨aid, auuid, apid, aca, aua, [("reaction_time", v1)]⟩,
         ⟨bid, buuid, bpid, bca, bua, [("accuracy", v2)]⟩]).cell 0 "reaction_time" =
      some v1 ∧
    (experiment_data_to_dataframe
        [⟨aid, auuid, apid, aca, aua, [("reaction_time", v1)]⟩,
         ⟨bid, buuid, bpid, bca, bua, [("accuracy", v2)]⟩]).cell 1 "accuracy" =
      some v2 :=
  ⟨rfl, rfl, rfl, rfl, rfl, rfl⟩

/-- C9: in every row of the normalized table, the five mandatory
fields (row id, experiment uuid, participant id, creation and update
timestamps) are present and carry the source row's own values — a
custom field whose name collides with a mandatory field name never
overwrites the mandatory value, for every input batch. -/
theorem normalize_mandatory_fields_precedence (rows : List ExperimentDataRow)
    (i : ℕ) (r : ExperimentDataRow) (hi : rows.get? i = some r) :
    (experiment_data_to_dataframe rows).cell i "id" = some (.int r.id) ∧
    (experiment_data_to_dataframe rows).cell i "experiment_uuid" =
      some (.str (uuidToString r.experiment_uuid)) ∧
    (experiment_data_to_dataframe rows).cell i "participant_id" =
      some (.str r.participant_id) ∧
    (experiment_data_to_dataframe rows).cell i "created_at" =
      some (.datetime r.created_at) ∧
    (experiment_data_to_dataframe rows).cell i "updated_at" =
      some (.datetime r.updated_at) := by
  have hne : ¬ rows = [] := by
    intro h
    rw [h] at hi
    simp at hi
  have hrec : (experiment_data_to_dataframe rows).records.get? i =
      some (record_of_row r) := by
    unfold experiment_data_to_dataframe
    rw [if_neg hne]
    simp only [List.get?_map, hi]
    rfl
  obtain ⟨g1, g2, g3, g4, g5⟩ := record_of_row_mandatory r
  unfold DataFrame.cell
  rw [hrec]
  exact ⟨by simp [g1], by simp [g2], by simp [g3], by simp [g4], by simp [g5]⟩

/-- A row whose custom data contains an entry colliding with the
mandatory `participant_id` column. -/
def collisionRow : ExperimentDataRow :=
  ⟨1, 2, "p", 3, 4, [("participant_id", Value.str "evil")]⟩

/-- C9, witness: a single row whose custom data even contains a
colliding `participant_id` entry still yields the mandatory value. -/
theorem normalize_mandatory_fields_precedence_witness :
    [collisionRow].get? 0 = some collisionRow ∧
    (experiment_data_to_dataframe [collisionRow]).cell 0 "participant_id" =
      some (.str "p") :=
  ⟨rfl, (normalize_mandatory_fields_precedence [collisionRow] 0 collisionRow
    rfl).2.2.1⟩

end Rows

namespace Pagination

/-- The pagination loop, started at any offset, returns exactly the
remainder of the dataset from that offset. -/
lemma get_all_data_raw_from_drop {α : Type} [DecidableEq α] (data : List α)
    (batch_size : ℕ) (hbs : 1 ≤ batch_size) :
    ∀ n offset, data.length + 1 - offset ≤ n →
      get_all_data_raw_from data batch_size offset = data.drop offset := by
  intro n
  induction n with
  | zero =>
    intro offset h
    have hdrop : data.drop offset = [] := List.drop_eq_nil_of_le (by omega)
    rw [get_all_data_raw_from]
    simp [get_data_raw, hdrop]
  | succ n ih =>
    intro offset h
    rw [get_all_data_raw_from]
    split
    · rename_i hempty
      simp only [get_data_raw] at hempty
      have hlen := congrArg List.length hempty
      rw [List.length_take, List.length_drop] at hlen
      simp only [List.length_nil] at hlen
      have hd : data.length ≤ offset := by omega
      rw [List.drop_eq_nil_of_le hd]
    · split
      · rename_i hempty hshort
        simp only [get_data_raw] at hshort ⊢
        rw [List.length_take, List.length_drop] at hshort
        exact List.take_of_length_le (by rw [List.length_drop]; omega)
      · rename_i hempty hshort
        simp only [get_data_raw] at hempty hshort ⊢
        rw [List.length_take, List.length_drop] at hshort
        rw [ih (offset + batch_size) (by omega)]
        rw [← List.drop_drop]
        exact List.take_append_drop batch_size (data.drop offset)

/-- The page list the loop fetches is never empty. -/
lemma fetched_pages_from_ne_nil {α : Type} [DecidableEq α] (data : List α)
    (batch_size offset : ℕ) :
    fetched_pages_from data batch_size offset ≠ [] := by
  rw [fetched_pages_from]
  split_ifs <;> simp

/-- Concatenating the fetched pages reproduces the loop's output. -/
lemma fetched_pages_from_join {α : Type} [DecidableEq α] (data : List α)
    (batch_size : ℕ) :
    ∀ n offset, data.length + 1 - offset ≤ n →
      (fetched_pages_from data batch_size offset).flatten =
        get_all_data_raw_from data batch_size offset := by
  intro n
  induction n with
  | zero =>
    intro offset h
    have hdrop : data.drop offset = [] := List.drop_eq_nil_of_le (by omega)
    rw [fetched_pages_from, get_all_data_raw_from]
    simp [get_data_raw, hdrop]
  | succ n ih =>
    intro offset h
    rw [fetched_pages_from, get_all_data_raw_from]
    split
    · simp_all
    · split
      · simp
      · rename_i hempty hshort
        simp only [List.flatten_cons]
        congr 1
        simp only [get_data_raw] at hempty hshort
        rw [List.length_take, List.length_drop] at hshort
        have hpos : 0 < batch_size := by
          rcases Nat.eq_zero_or_pos batch_size with h0 | hp
          · exfalso
            apply hempty
            simp [get_data_raw, h0]
          · exact hp
        exact ih (offset + batch_size) (by omega)

/-- Every fetched page except the final one is full. -/
lemma fetched_pages_from_full {α : Type} [DecidableEq α] (data : List α)
    (batch_size : ℕ) :
    ∀ n offset, data.length + 1 - offset ≤ n →
      ∀ p ∈ (fetched_pages_from data batch_size offset).dropLast,
        p.length = batch_size := by
  intro n
  induction n with
  | zero =>
    intro offset h p hp
    have hdrop : data.drop offset = [] := List.drop_eq_nil_of_le (by omega)
    rw [fetched_pages_from] at hp
    simp [get_data_raw, hdrop] at hp
  | succ n ih =>
    intro offset h p hp
    rw [fetched_pages_from] at hp
    split at hp
    · simp at hp
    · split at hp
      · simp at hp
      · rename_i hempty hshort
        obtain ⟨q, rest, hqr⟩ :
            ∃ q rest, fetched_pages_from data batch_size (offset + batch_size) =
              q :: rest := by
          rcases hfp : fetched_pages_from data batch_size (offset + batch_size) with
            _ | ⟨q, rest⟩
          · exact absurd hfp (fetched_pages_from_ne_nil data batch_size _)
          · exact ⟨q, rest, rfl⟩
        rw [hqr, List.dropLast_cons₂, List.mem_cons] at hp
        simp only [get_data_raw] at hempty hshort
        rw [List.length_take, List.length_drop] at hshort
        have hpos : 0 < batch_size := by
          rcases Nat.eq_zero_or_pos batch_size with h0 | hp'
          · exfalso
            apply hempty
            simp [h0]
          · exact hp'
        rcases hp with hp | hp
        · subst hp
          simp only [get_data_raw, List.length_take, List.length_drop]
          omega
        · exact ih (offset + batch_size) (by omega) p (by rw [hqr]; exact hp)

/-- The final fetched page is empty or short — the loop's two stopping
conditions. -/
lemma fetched_pages_from_last_short {α : Type} [DecidableEq α] (data : List α)
    (batch_size : ℕ) (hbs : 1 ≤ batch_size) :
    ∀ n offset, data.length + 1 - offset ≤ n →
      ∀ p, (fetched_pages_from data batch_size offset).getLast? = some p →
        p.length < batch_size := by
  intro n
  induction n with
  | zero =>
    intro offset h p hp
    have hdrop : data.drop offset = [] := List.drop_eq_nil_of_le (by omega)
    rw [fetched_pages_from] at hp
    simp [get_data_raw, hdrop] at hp
    subst hp
    simpa using hbs
  | succ n ih =>
    intro offset h p hp
    rw [fetched_pages_from] at hp
    split at hp
    · rename_i hempty
      simp only [List.getLast?_singleton, Option.some.injEq] at hp
      subst hp
      rw [hempty]
      simpa using hbs
    · split at hp
      · rename_i hempty hshort
        simp only [List.getLast?_singleton, Option.some.injEq] at hp
        subst hp
        exact hshort
      · rename_i hempty hshort
        obtain ⟨q, rest, hqr⟩ :
            ∃ q rest, fetched_pages_from data batch_size (offset + batch_size) =
              q :: rest := by
          rcases hfp : fetched_pages_from data batch_size (offset + batch_size) with
            _ | ⟨q, rest⟩
          · exact absurd hfp (fetched_pages_from_ne_nil data batch_size _)
          · exact ⟨q, rest, rfl⟩
        rw [hqr, List.getLast?_cons_cons] at hp
        simp only [get_data_raw] at hempty hshort
        rw [List.length_take, List.length_drop] at hshort
        exact ih (offset + batch_size) (by omega) p (by rw [hqr]; exact hp)

/-- C10: for every dataset served page-wise, the pagination helper
fetches pages sequentially at offsets 0, b, 2b, …, returns the
in-order concatenation of all fetched pages — the whole dataset, so no
trailing full page is truncated and the loop terminates — and stops
exactly at the first page that is empty or shorter than the requested
batch size: every earlier page is exactly full and the final page is
short. -/
theorem get_all_data_raw_complete {α : Type} [DecidableEq α] (data : List α)
    (batch_size : ℕ) (hbs : 1 ≤ batch_size) :
    get_all_data_raw data batch_size = data ∧
    (fetched_pages_from data batch_size 0).flatten = get_all_data_raw data batch_size ∧
    (∀ p ∈ (fetched_pages_from data batch_size 0).dropLast,
      p.length = batch_size) ∧
    (∀ p, (fetched_pages_from data batch_size 0).getLast? = some p →
      p.length < batch_size) := by
  refine ⟨?_, ?_, ?_, ?_⟩
  · unfold get_all_data_raw
    rw [get_all_data_raw_from_drop data batch_size hbs (data.length + 1) 0
      (by omega)]
    exact List.drop_zero data
  · unfold get_all_data_raw
    exact fetched_pages_from_join data batch_size (data.length + 1) 0 (by omega)
  · exact fetched_pages_from_full data batch_size (data.length + 1) 0 (by omega)
  · exact fetched_pages_from_last_short data batch_size hbs (data.length + 1) 0
      (by omega)

/-- C10, witness: a five-element dataset with batch size 2 is fetched
as pages [1,2], [3,4], [5] and concatenated without loss. -/
theorem get_all_data_raw_complete_witness :
    (1 : ℕ) ≤ 2 ∧
    get_all_data_raw [1, 2, 3, 4, 5] 2 = ([1, 2, 3, 4, 5] : List ℕ) ∧
    (fetched_pages_from ([1, 2, 3, 4, 5] : List ℕ) 2 0).flatten =
      get_all_data_raw [1, 2, 3, 4, 5] 2 := by
  have h := get_all_data_raw_complete ([1, 2, 3, 4, 5] : List ℕ) 2 (by norm_num)
  exact ⟨by norm_num, h.1, h.2.1⟩

end Pagination
